import Mathlib

/-!
Verification of `openmw-utils` (src/openmw-mm-cli.py) against its
natural-language specification.

The repository ships a single CLI source file; the library modules it
imports (`lib.esm`, `lib.omwconfig`, `lib.core`, `lib.config`) are not part
of the sources under verification.  Functions defined in the CLI file are
embedded directly from that source; behaviour that lives only in the
missing library modules is modelled from the specification, and each such
definition carries a doc comment starting with `Modelled from the spec:`.
-/

namespace OpenmwUtils

/-- An `Entry` of a leveled list: a (reference identifier, level) pair.
Uniqueness is by the pair, not by reference identifier alone (spec §3). -/
structure Entry where
  ref : String
  level : Nat
deriving DecidableEq, Repr

/-- The canonical serialization order on entries: sorted by reference
identifier, then level (spec §4.2). -/
def entryLE (a b : Entry) : Prop :=
  a.ref < b.ref ∨ (a.ref = b.ref ∧ a.level ≤ b.level)

instance : DecidableRel entryLE := fun a b => by
  unfold entryLE; infer_instance

instance : IsTotal Entry entryLE where
  total a b := by
    unfold entryLE
    rcases lt_trichotomy a.ref b.ref with h | h | h
    · exact Or.inl (Or.inl h)
    · rcases Nat.le_total a.level b.level with hl | hl
      · exact Or.inl (Or.inr ⟨h, hl⟩)
      · exact Or.inr (Or.inr ⟨h.symm, hl⟩)
    · exact Or.inr (Or.inl h)

instance : IsTrans Entry entryLE where
  trans a b c hab hbc := by
    unfold entryLE at *
    rcases hab with h1 | ⟨h1, h1l⟩
    · rcases hbc with h2 | ⟨h2, _⟩
      · exact Or.inl (h1.trans h2)
      · exact Or.inl (h2 ▸ h1)
    · rcases hbc with h2 | ⟨h2, h2l⟩
      · exact Or.inl (h1 ▸ h2)
      · exact Or.inr ⟨h1.trans h2, h1l.trans h2l⟩

instance : IsAntisymm Entry entryLE where
  antisymm a b hab hba := by
    unfold entryLE at *
    rcases hab with h1 | ⟨h1, h1l⟩
    · rcases hba with h2 | ⟨h2, _⟩
      · exact absurd h2 (lt_asymm h1)
      · exact absurd h1 (h2 ▸ lt_irrefl b.ref)
    · rcases hba with h2 | ⟨_, h2l⟩
      · exact absurd h2 (h1 ▸ lt_irrefl a.ref)
      · cases a; cases b
        simp only [Entry.mk.injEq]
        exact ⟨h1, Nat.le_antisymm h1l h2l⟩

/-- Modelled from the spec: `LeveledListCodec.encode` lives in `lib/esm.py`,
which is not under src/.  Spec §4.2: "entries are serialized in a canonical
order (sorted by reference identifier, then level) regardless of input
order".  We model the serialized entry sequence of a list as its entry list
sorted in that canonical order. -/
def encodeEntries (entries : List Entry) : List Entry :=
  entries.insertionSort entryLE

/-- Modelled from the spec: `LeveledListCodec.decode` lives in `lib/esm.py`,
which is not under src/.  Decoding reads back the serialized entry sequence;
the Entry set it denotes is the set of entries of that sequence (spec §3:
a LeveledList holds a set of entries with no duplicate pairs). -/
def decodeEntries (serialized : List Entry) : Finset Entry :=
  serialized.toFinset

theorem encodeEntries_toFinset (l : List Entry) :
    (encodeEntries l).toFinset = l.toFinset :=
  List.toFinset_eq_of_perm _ _ (List.perm_insertionSort entryLE l)

theorem encodeEntries_eq_of_toFinset_eq (l₁ l₂ : List Entry)
    (h₁ : l₁.Nodup) (h₂ : l₂.Nodup) (h : l₁.toFinset = l₂.toFinset) :
    encodeEntries l₁ = encodeEntries l₂ := by
  have hperm : List.Perm l₁ l₂ := by
    have := List.toFinset_eq_iff_perm_dedup.mp h
    rwa [h₁.dedup, h₂.dedup] at this
  exact List.eq_of_perm_of_sorted
    ((List.perm_insertionSort entryLE l₁).trans
      (hperm.trans (List.perm_insertionSort entryLE l₂).symm))
    (List.sorted_insertionSort entryLE l₁)
    (List.sorted_insertionSort entryLE l₂)

/-- A leveled-list record as defined by one plugin: record type code
(`LEVC` for creatures, `LEVI` for items), list identifier, scalar flags and
the entry list (spec §3). -/
structure LevRecord where
  recType : String
  id : String
  flags : Nat
  entries : List Entry
deriving DecidableEq, Repr

/-- A plugin file as seen through the openmw.cfg bookkeeping: its name, its
enabled state, and the leveled-list records obtained by parsing it
(`Esm(path)` followed by `parse_records()`). -/
structure Plugin where
  name : String
  enabled : Bool
  records : List LevRecord
deriving DecidableEq, Repr

/-- A mod directory entry of openmw.cfg, holding its plugins in order. -/
structure ModDir where
  plugins : List Plugin
deriving DecidableEq, Repr

/-- The parsed openmw.cfg, reduced to what `merge_lists` reads from it:
the ordered mod list (`cfg.get_mods()`). -/
structure ConfigFile where
  mods : List ModDir
deriving DecidableEq, Repr

/-- Per-identifier merge accumulator (spec §3): the current merged entry
set, the baseline entry set captured the first time the identifier was
seen, the flags of the most recently processed defining plugin, the
established record kind, and whether the identifier was pinned after a
kind mismatch (spec §4.3 step 2, mismatch bullet). -/
structure Accumulator where
  entries : Finset Entry
  baseline : Finset Entry
  flags : Nat
  recType : String
  pinned : Bool
deriving DecidableEq

/-- The in-progress accumulator map, identifier → accumulator. -/
abbrev AccMap := List (String × Accumulator)

def lookupAcc (m : AccMap) (id : String) : Option Accumulator :=
  (m.find? (fun e => e.1 = id)).map (·.2)

def updateAcc (m : AccMap) (id : String) (a : Accumulator) : AccMap :=
  m.map (fun e => if e.1 = id then (id, a) else e)

/-- The accumulator seeded by a record whose identifier is unseen:
`entries = baseline = record.entries` (spec §4.3 steps 1 and 2). -/
def seedAcc (r : LevRecord) : Accumulator :=
  ⟨r.entries.toFinset, r.entries.toFinset, r.flags, r.recType, false⟩

/-- Modelled from the spec: `Esm.merge_with` lives in `lib/esm.py`, which is
not under src/.  Folding one leveled-list record into the accumulator map
(spec §4.3 step 2): an unseen identifier seeds a fresh accumulator with
`entries = baseline = record.entries`; otherwise
`added = plugin.entries − baseline`, `removed = baseline − plugin.entries`,
`entries = (entries ∪ added) − removed`, flags last-writer-wins; a record
whose kind differs from the established kind pins the identifier to the
current plugin's raw definition and excludes it from additive merging. -/
def applyRecord (m : AccMap) (r : LevRecord) : AccMap :=
  match lookupAcc m r.id with
  | none => m ++ [(r.id, seedAcc r)]
  | some a =>
    if r.recType ≠ a.recType ∨ a.pinned then
      updateAcc m r.id ⟨r.entries.toFinset, a.baseline, r.flags, a.recType, true⟩
    else
      updateAcc m r.id
        ⟨(a.entries ∪ (r.entries.toFinset \ a.baseline)) \ (a.baseline \ r.entries.toFinset),
         a.baseline, r.flags, a.recType, false⟩

/-- Modelled from the spec: `Esm.merge_with` folds every leveled-list record
of one plugin into the accumulator map, in record order.  (Its second
return value, the diff mapping, feeds only the printed report and is
modelled separately by the render functions below.) -/
def merge_with (m : AccMap) (p : Plugin) : AccMap :=
  p.records.foldl applyRecord m

/-- Exit via `raise SystemExit(code)` after printing `msg`. -/
structure ExitErr where
  code : Nat
  msg : String
deriving DecidableEq, Repr

/-- What a successful `merge_lists` run produces: the plugins actually
folded (in fold order), the final accumulator map, and the path the merged
file is written to. -/
structure MergeResult where
  trace : List Plugin
  accs : AccMap
  out : String
deriving DecidableEq

/-- The output-path default of `merge_lists`: `if not out: out =
"./Merged_Lists.esp"` (src line 279). -/
def defaultOut (out : Option String) : String :=
  match out with
  | none => "./Merged_Lists.esp"
  | some s => if s = "" then "./Merged_Lists.esp" else s

/-- One iteration of the inner plugin loop of `merge_lists` (src lines
256-261): the plugin is folded in exactly when its name is not blacklisted
and it is enabled. -/
def mergePlugin (blacklist : List String) (st : List Plugin × AccMap) (p : Plugin) :
    List Plugin × AccMap :=
  if p.name ∉ blacklist ∧ p.enabled = true then
    (st.1 ++ [p], merge_with st.2 p)
  else st

/-- `merge_lists` (src lines 236-281).  `cfg.get_mods()` empty aborts with
exit status 1; otherwise the merged document starts from the bundled
`empty.esp` — modelled from the spec as an empty accumulator map, since
that document defines no leveled lists and step 1 of spec §4.3 has the
first folded document seed every accumulator — and every enabled,
non-blacklisted plugin is folded in, mod by mod, plugin by plugin, in
configuration order.  The printed per-plugin diff report is modelled by
`renderBlock` below. -/
def merge_lists (cfg : ConfigFile) (blacklist : List String) (out : Option String) :
    Except ExitErr MergeResult :=
  if cfg.mods.isEmpty then
    .error ⟨1, "Nothing to merge!"⟩
  else
    let st := cfg.mods.foldl (fun st m => m.plugins.foldl (mergePlugin blacklist) st) ([], [])
    .ok ⟨st.1, st.2, defaultOut out⟩

/-- All plugins listed in the configuration, in listing order. -/
def allPlugins (cfg : ConfigFile) : List Plugin :=
  cfg.mods.flatMap (·.plugins)

/-- The merge condition of src line 257, as a Boolean. -/
def mergeCond (blacklist : List String) (p : Plugin) : Bool :=
  decide (p.name ∉ blacklist ∧ p.enabled = true)

theorem foldl_nested (mods : List ModDir) (f : List Plugin × AccMap → Plugin → List Plugin × AccMap)
    (init : List Plugin × AccMap) :
    mods.foldl (fun st m => m.plugins.foldl f st) init =
      (mods.flatMap (·.plugins)).foldl f init := by
  induction mods generalizing init with
  | nil => rfl
  | cons m rest ih => simp [List.flatMap_cons, List.foldl_append, ih]

theorem foldl_mergePlugin (bl : List String) (ps : List Plugin)
    (t : List Plugin) (a : AccMap) :
    ps.foldl (mergePlugin bl) (t, a) =
      (t ++ ps.filter (mergeCond bl), (ps.filter (mergeCond bl)).foldl merge_with a) := by
  induction ps generalizing t a with
  | nil => simp
  | cons p rest ih =>
    by_cases h : p.name ∉ bl ∧ p.enabled = true
    · simp [mergePlugin, mergeCond, h, ih]
    · simp [mergePlugin, mergeCond, h, ih]

/-- Characterization of a successful `merge_lists` run: the plugins folded
are exactly the enabled, non-blacklisted plugins in configuration order,
the accumulator map is their left fold through `merge_with` starting from
the empty map, and the output path is the caller's or the default. -/
theorem merge_lists_ok (cfg : ConfigFile) (bl : List String) (out : Option String)
    (h : cfg.mods ≠ []) :
    merge_lists cfg bl out =
      .ok ⟨(allPlugins cfg).filter (mergeCond bl),
           ((allPlugins cfg).filter (mergeCond bl)).foldl merge_with [],
           defaultOut out⟩ := by
  unfold merge_lists
  rw [if_neg (by simpa using h)]
  rw [foldl_nested, foldl_mergePlugin]
  simp [allPlugins]

theorem merge_lists_ok_inv {cfg : ConfigFile} {bl : List String} {out : Option String}
    {res : MergeResult} (hok : merge_lists cfg bl out = .ok res) :
    res.trace = (allPlugins cfg).filter (mergeCond bl) ∧
    res.accs = res.trace.foldl merge_with [] ∧
    res.out = defaultOut out ∧ cfg.mods ≠ [] := by
  by_cases h : cfg.mods = []
  · rw [merge_lists, if_pos (by simpa using h)] at hok
    exact absurd hok (by simp)
  · rw [merge_lists_ok cfg bl out h] at hok
    cases hok
    exact ⟨rfl, rfl, rfl, h⟩

theorem lookupAcc_nil (id : String) : lookupAcc [] id = none := rfl

theorem lookupAcc_cons (e : String × Accumulator) (rest : AccMap) (id : String) :
    lookupAcc (e :: rest) id = if e.1 = id then some e.2 else lookupAcc rest id := by
  unfold lookupAcc
  by_cases h : e.1 = id <;> simp [List.find?, h]

theorem updateAcc_cons (e : String × Accumulator) (rest : AccMap) (id : String)
    (a : Accumulator) :
    updateAcc (e :: rest) id a = (if e.1 = id then (id, a) else e) :: updateAcc rest id a := rfl

theorem lookupAcc_append_self {m : AccMap} {id : String} (a : Accumulator)
    (h : lookupAcc m id = none) :
    lookupAcc (m ++ [(id, a)]) id = some a := by
  induction m with
  | nil => simp [lookupAcc_cons]
  | cons e rest ih =>
    rw [lookupAcc_cons] at h
    rw [List.cons_append, lookupAcc_cons]
    by_cases he : e.1 = id
    · rw [if_pos he] at h; cases h
    · rw [if_neg he] at h
      rw [if_neg he]
      exact ih h

theorem lookupAcc_append_ne {m : AccMap} {id id' : String} (a : Accumulator)
    (h : id' ≠ id) :
    lookupAcc (m ++ [(id', a)]) id = lookupAcc m id := by
  induction m with
  | nil => simp [lookupAcc_nil, lookupAcc_cons, h]
  | cons e rest ih =>
    rw [List.cons_append, lookupAcc_cons, lookupAcc_cons]
    by_cases he : e.1 = id
    · rw [if_pos he, if_pos he]
    · rw [if_neg he, if_neg he, ih]

theorem lookupAcc_updateAcc_ne {m : AccMap} {id id' : String} (a : Accumulator)
    (h : id' ≠ id) :
    lookupAcc (updateAcc m id' a) id = lookupAcc m id := by
  induction m with
  | nil => rfl
  | cons e rest ih =>
    rw [updateAcc_cons, lookupAcc_cons, lookupAcc_cons]
    by_cases he : e.1 = id'
    · rw [if_pos he]
      rw [if_neg (by simpa using h), if_neg (show ¬e.1 = id by rw [he]; exact h), ih]
    · rw [if_neg he]
      by_cases he2 : e.1 = id
      · rw [if_pos he2, if_pos he2]
      · rw [if_neg he2, if_neg he2, ih]

theorem applyRecord_lookup_ne {m : AccMap} {r : LevRecord} {id : String}
    (h : r.id ≠ id) :
    lookupAcc (applyRecord m r) id = lookupAcc m id := by
  unfold applyRecord
  cases hl : lookupAcc m r.id with
  | none => exact lookupAcc_append_ne _ h
  | some a =>
    by_cases hk : r.recType ≠ a.recType ∨ a.pinned
    · simp only [if_pos hk]
      exact lookupAcc_updateAcc_ne _ h
    · simp only [if_neg hk]
      exact lookupAcc_updateAcc_ne _ h

theorem foldl_applyRecord_lookup_not_mem {rs : List LevRecord} {m : AccMap} {id : String}
    (h : id ∉ rs.map (·.id)) :
    lookupAcc (rs.foldl applyRecord m) id = lookupAcc m id := by
  induction rs generalizing m with
  | nil => rfl
  | cons r rest ih =>
    simp only [List.map_cons, List.mem_cons, not_or] at h
    rw [List.foldl_cons, ih h.2, applyRecord_lookup_ne (fun he => h.1 he.symm)]

/-- Seeding: folding a record list whose identifiers are fresh and distinct
leaves each identifier mapped to its seed accumulator. -/
theorem foldl_applyRecord_seed {rs : List LevRecord} {m : AccMap}
    (hnd : (rs.map (·.id)).Nodup)
    (hfresh : ∀ r ∈ rs, lookupAcc m r.id = none) :
    ∀ r ∈ rs, lookupAcc (rs.foldl applyRecord m) r.id = some (seedAcc r) := by
  induction rs generalizing m with
  | nil => intro r hr; cases hr
  | cons r0 rest ih =>
    simp only [List.map_cons, List.nodup_cons] at hnd
    have h0 : lookupAcc m r0.id = none := hfresh r0 (List.mem_cons_self _ _)
    have happ : applyRecord m r0 = m ++ [(r0.id, seedAcc r0)] := by
      unfold applyRecord; rw [h0]
    intro r hr
    rcases List.mem_cons.mp hr with rfl | hr
    · rw [List.foldl_cons, happ, foldl_applyRecord_lookup_not_mem hnd.1]
      exact lookupAcc_append_self _ h0
    · rw [List.foldl_cons, happ]
      refine ih hnd.2 ?_ r hr
      intro r' hr'
      have hne : r0.id ≠ r'.id := by
        intro he
        exact hnd.1 (he ▸ List.mem_map_of_mem (·.id) hr')
      rw [lookupAcc_append_ne _ hne]
      exact hfresh r' (List.mem_cons_of_mem _ hr')

theorem lookupAcc_mem {m : AccMap} {id : String} {a : Accumulator}
    (h : lookupAcc m id = some a) : ∃ e ∈ m, e.1 = id ∧ e.2 = a := by
  unfold lookupAcc at h
  cases hf : m.find? (fun e => e.1 = id) with
  | none => rw [hf] at h; cases h
  | some e =>
    rw [hf] at h
    refine ⟨e, List.mem_of_find?_eq_some hf, ?_, by simpa using h⟩
    have := List.find?_some hf
    simpa using this

theorem applyRecord_baseline {m : AccMap} {r : LevRecord} :
    ∀ e ∈ applyRecord m r,
      (∃ e' ∈ m, e.1 = e'.1 ∧ e.2.baseline = e'.2.baseline) ∨
      (e.1 = r.id ∧ e.2.baseline = r.entries.toFinset) := by
  intro e he
  unfold applyRecord at he
  cases hl : lookupAcc m r.id with
  | none =>
    rw [hl] at he
    rcases List.mem_append.mp he with h | h
    · exact Or.inl ⟨e, h, rfl, rfl⟩
    · simp only [List.mem_singleton] at h
      subst h
      exact Or.inr ⟨rfl, rfl⟩
  | some a =>
    rw [hl] at he
    dsimp only at he
    obtain ⟨ea, hea, heaid, heaa⟩ := lookupAcc_mem hl
    by_cases hk : r.recType ≠ a.recType ∨ a.pinned
    · rw [if_pos hk] at he
      unfold updateAcc at he
      rw [List.mem_map] at he
      obtain ⟨e', he', heq⟩ := he
      by_cases h1 : e'.1 = r.id
      · rw [if_pos h1] at heq
        subst heq
        exact Or.inl ⟨ea, hea, heaid.symm, by rw [heaa]⟩
      · rw [if_neg h1] at heq
        subst heq
        exact Or.inl ⟨e', he', rfl, rfl⟩
    · rw [if_neg hk] at he
      unfold updateAcc at he
      rw [List.mem_map] at he
      obtain ⟨e', he', heq⟩ := he
      by_cases h1 : e'.1 = r.id
      · rw [if_pos h1] at heq
        subst heq
        exact Or.inl ⟨ea, hea, heaid.symm, by rw [heaa]⟩
      · rw [if_neg h1] at heq
        subst heq
        exact Or.inl ⟨e', he', rfl, rfl⟩

theorem merge_with_baseline {m : AccMap} {p : Plugin} :
    ∀ e ∈ merge_with m p,
      (∃ e' ∈ m, e.1 = e'.1 ∧ e.2.baseline = e'.2.baseline) ∨
      (∃ r ∈ p.records, e.1 = r.id ∧ e.2.baseline = r.entries.toFinset) := by
  unfold merge_with
  generalize p.records = rs
  induction rs generalizing m with
  | nil => intro e he; exact Or.inl ⟨e, he, rfl, rfl⟩
  | cons r rest ih =>
    intro e he
    rw [List.foldl_cons] at he
    rcases ih e he with ⟨e', he', hid, hb⟩ | ⟨r', hr', hid, hb⟩
    · rcases applyRecord_baseline e' he' with ⟨e'', he'', hid2, hb2⟩ | ⟨hid2, hb2⟩
      · exact Or.inl ⟨e'', he'', hid.trans hid2, hb.trans hb2⟩
      · exact Or.inr ⟨r, List.mem_cons_self _ _, hid.trans hid2, hb.trans hb2⟩
    · exact Or.inr ⟨r', List.mem_cons_of_mem _ hr', hid, hb⟩

theorem foldl_merge_with_baseline {ps : List Plugin} {m : AccMap} :
    ∀ e ∈ ps.foldl merge_with m,
      (∃ e' ∈ m, e.1 = e'.1 ∧ e.2.baseline = e'.2.baseline) ∨
      (∃ p ∈ ps, ∃ r ∈ p.records, e.1 = r.id ∧ e.2.baseline = r.entries.toFinset) := by
  induction ps generalizing m with
  | nil => intro e he; exact Or.inl ⟨e, he, rfl, rfl⟩
  | cons p rest ih =>
    intro e he
    rw [List.foldl_cons] at he
    rcases ih e he with ⟨e', he', hid, hb⟩ | ⟨p', hp', r', hr', hid, hb⟩
    · rcases merge_with_baseline e' he' with ⟨e'', he'', hid2, hb2⟩ | ⟨r', hr', hid2, hb2⟩
      · exact Or.inl ⟨e'', he'', hid.trans hid2, hb.trans hb2⟩
      · exact Or.inr ⟨p, List.mem_cons_self _ _, r', hr', hid.trans hid2, hb.trans hb2⟩
    · exact Or.inr ⟨p', List.mem_cons_of_mem _ hp', r', hr', hid, hb⟩

/-- A heading line of the merge diff report: `"\t ==== %s ===="` (src lines
273 and 275). -/
def hline (s : String) : String := "\t ==== " ++ s ++ " ===="

/-- `name.rstrip("\x00")` of src line 277: trailing NUL padding stripped. -/
def rstripNull (s : String) : String :=
  String.mk ((s.data.reverse.dropWhile (fun c => c = '\x00')).reverse)

/-- An entry line of the report: `"\t\t%s" % name.rstrip("\x00")` (src line
277). -/
def entryLine (name : String) : String := "\t\t" ++ rstripNull name

/-- The list-kind label of src lines 264-267: `"Leveled Creatures"` when the
record type code is `LEVC`, `"Leveled Items"` otherwise. -/
def listLabel (recCode : String) : String :=
  if recCode = "LEVC" then "Leveled Creatures" else "Leveled Items"

/-- The lines printed for one non-empty status category: its heading
followed by one line per entry name, names in sorted order
(src lines 275-277). -/
def renderStatus (st : String × List String) : List String :=
  hline st.1 :: (st.2.insertionSort (· ≤ ·)).map entryLine

/-- The inner status loop of src lines 268-277: empty categories are
skipped, the list-kind label is printed once before the first non-empty
category (the `printed` flag), every non-empty category contributes its
heading and entries. -/
def renderBlockAux (label : String) : Bool → List (String × List String) → List String
  | _, [] => []
  | printed, st :: rest =>
    if st.2 = [] then renderBlockAux label printed rest
    else
      (if printed then [] else [hline label]) ++ renderStatus st ++ renderBlockAux label true rest

/-- The lines printed for one record-type block of the per-plugin diff
report (src lines 263-277). -/
def renderBlock (recCode : String) (statuses : List (String × List String)) : List String :=
  renderBlockAux (listLabel recCode) false statuses

theorem renderBlockAux_true (label : String) (statuses : List (String × List String)) :
    renderBlockAux label true statuses =
      (statuses.filter (fun st => !st.2.isEmpty)).flatMap renderStatus := by
  induction statuses with
  | nil => rfl
  | cons st rest ih =>
    by_cases h : st.2 = []
    · simp [renderBlockAux, h, List.filter_cons, ih]
    · simp [renderBlockAux, h, List.filter_cons, ih, List.isEmpty_iff]

theorem renderBlockAux_false (label : String) (statuses : List (String × List String)) :
    renderBlockAux label false statuses =
      if (statuses.filter (fun st => !st.2.isEmpty)).isEmpty then []
      else hline label :: (statuses.filter (fun st => !st.2.isEmpty)).flatMap renderStatus := by
  induction statuses with
  | nil => rfl
  | cons st rest ih =>
    by_cases h : st.2 = []
    · have hf : List.filter (fun s => !s.2.isEmpty) (st :: rest) =
          List.filter (fun s => !s.2.isEmpty) rest := by
        rw [List.filter_cons]; simp [h]
      simp only [renderBlockAux, if_pos h, ih, hf]
    · have hf : List.filter (fun s => !s.2.isEmpty) (st :: rest) =
          st :: List.filter (fun s => !s.2.isEmpty) rest := by
        rw [List.filter_cons]; simp [List.isEmpty_iff, h]
      simp [renderBlockAux, h, renderBlockAux_true, hf]

/-- The plugin bookkeeping view of openmw.cfg used by the enable/disable
commands: each installed plugin with its name and enabled state. -/
structure PluginState where
  name : String
  enabled : Bool
deriving DecidableEq, Repr

structure OmwConfig where
  plugins : List PluginState
deriving DecidableEq, Repr

/-- Modelled from the spec: `core.find_plugin` lives in `lib/core.py`, which
is not under src/.  Plugin bookkeeping is an external collaborator (spec
§1); finding a plugin by name yields the installed plugin or nothing. -/
def find_plugin (cfg : OmwConfig) (name : String) : Option PluginState :=
  cfg.plugins.find? (fun p => p.name = name)

/-- Modelled from the spec: `plugin.enable()` / `plugin.disable()` live in
`lib/` (not under src/); they flip the named plugin's enabled state in the
configuration object. -/
def setEnabled (cfg : OmwConfig) (name : String) (b : Bool) : OmwConfig :=
  ⟨cfg.plugins.map (fun p => if p.name = name then ⟨p.name, b⟩ else p)⟩

/-- `enable_plugin` (src lines 191-210).  The `Bool` of the success value
records that `omw_cfg.write()` was called; the error value is the
`SystemExit(1)` raised after the printed message. -/
def enable_plugin (cfg : OmwConfig) (name : String) : Except ExitErr (OmwConfig × Bool) :=
  match find_plugin cfg name with
  | none => .error ⟨1, "Could not find plugin " ++ name ++ "."⟩
  | some p =>
    if p.enabled then .error ⟨1, "Plugin " ++ name ++ " is already enabled."⟩
    else .ok (setEnabled cfg name true, true)

/-- `disable_plugin` (src lines 214-233).  A redundant disable only prints a
message (src lines 228-229, with no `raise`) and falls through to
`plugin.disable()` and `omw_cfg.write()`. -/
def disable_plugin (cfg : OmwConfig) (name : String) : Except ExitErr (OmwConfig × Bool) :=
  match find_plugin cfg name with
  | none => .error ⟨1, "Could not find plugin " ++ name ++ "."⟩
  | some _ => .ok (setEnabled cfg name false, true)

/-- A key-value line of openmw.cfg (`ConfigEntry` of lib/omwconfig.py). -/
structure ConfigEntryKV where
  key : String
  value : String
deriving DecidableEq, Repr

/-- Modelled from the spec: `ConfigFile.remove` lives in `lib/omwconfig.py`,
which is not under src/; it removes a matching entry line from the parsed
configuration. -/
def removeEntry (entries : List ConfigEntryKV) (e : ConfigEntryKV) : List ConfigEntryKV :=
  entries.erase e

/-- `clean_mods` (src lines 34-63), over the entry lines of openmw.cfg.
`pathExists` stands for `os.path.exists`, and `orphans` for the result of
`core.get_orphaned_plugins` (lib/core.py, not under src/).  Returns the
resulting entry list and whether `omw_cfg.write()` was called
(src lines 62-63: `if bad_mods or bad_plugins: omw_cfg.write()`). -/
def clean_mods (entries : List ConfigEntryKV) (pathExists : String → Bool)
    (orphans : List String) : List ConfigEntryKV × Bool :=
  let bad_mods := (entries.filter (fun e => e.key = "data")).filter
      (fun e => !(pathExists e.value))
  let entries1 := bad_mods.foldl removeEntry entries
  let entries2 := orphans.foldl (fun es p => removeEntry es ⟨"content", p⟩) entries1
  (entries2, !bad_mods.isEmpty || !orphans.isEmpty)

/-! Concrete fixtures used by the witness theorems. -/

def pluginR : Plugin :=
  ⟨"R.esp", true, [⟨"LEVI", "list_a", 3, [⟨"item_a", 1⟩, ⟨"item_b", 2⟩]⟩]⟩

def cfgR : ConfigFile := ⟨[⟨[pluginR]⟩]⟩

def resR : MergeResult := ⟨[pluginR], merge_with [] pluginR, "./Merged_Lists.esp"⟩

def pluginA : Plugin := ⟨"A.esp", true, []⟩

def pluginB : Plugin := ⟨"B.esp", false, []⟩

def pluginC : Plugin := ⟨"C.esp", true, []⟩

def cfgW : ConfigFile := ⟨[⟨[pluginA, pluginB]⟩, ⟨[pluginC]⟩]⟩

def blW : List String := ["C.esp"]

def resW : MergeResult := ⟨[pluginA], [], "./Merged_Lists.esp"⟩

def cfgEn : OmwConfig := ⟨[⟨"Morrowind.esm", true⟩]⟩

def cfgDis : OmwConfig := ⟨[⟨"Morrowind.esm", false⟩]⟩

/-- C1: the first document of the plugin sequence folded by `merge_lists`
is the baseline: every leveled-list record of that first document seeds an
accumulator with `entries = baseline = record.entries`, and every baseline
in the final accumulator map comes from a record of one of the folded
plugins — the core does not choose a baseline from anywhere else. -/
theorem claim_C1_baseline_seeding (cfg : ConfigFile) (bl : List String)
    (out : Option String) (res : MergeResult) (p : Plugin) (rest : List Plugin)
    (hok : merge_lists cfg bl out = .ok res)
    (htrace : res.trace = p :: rest)
    (hnodup : (p.records.map (·.id)).Nodup) :
    (∀ r ∈ p.records,
        lookupAcc (merge_with [] p) r.id =
          some ⟨r.entries.toFinset, r.entries.toFinset, r.flags, r.recType, false⟩) ∧
    (∀ e ∈ res.accs, ∃ q ∈ res.trace, ∃ r ∈ q.records,
        r.id = e.1 ∧ e.2.baseline = r.entries.toFinset) := by
  obtain ⟨htr, hacc, -, -⟩ := merge_lists_ok_inv hok
  constructor
  · intro r hr
    have := foldl_applyRecord_seed (m := []) hnodup (fun r _ => rfl) r hr
    simpa [seedAcc, merge_with] using this
  · intro e he
    rw [hacc] at he
    rcases foldl_merge_with_baseline e he with ⟨e', he', -, -⟩ | ⟨q, hq, r, hr, hid, hb⟩
    · cases he'
    · exact ⟨q, hq, r, hr, hid.symm, hb⟩

theorem claim_C1_witness :
    (∀ r ∈ pluginR.records,
        lookupAcc (merge_with [] pluginR) r.id =
          some ⟨r.entries.toFinset, r.entries.toFinset, r.flags, r.recType, false⟩) ∧
    (∀ e ∈ resR.accs, ∃ q ∈ resR.trace, ∃ r ∈ q.records,
        r.id = e.1 ∧ e.2.baseline = r.entries.toFinset) :=
  claim_C1_baseline_seeding cfgR [] none resR pluginR [] rfl rfl (by decide)

/-- C2: a plugin listed in the configuration is folded into the merge
exactly when it is enabled and its name is not in the exclusion list, and
the merged accumulator state is the fold of exactly the folded plugins —
excluded or disabled plugins contribute nothing to it. -/
theorem claim_C2_fold_iff (cfg : ConfigFile) (bl : List String) (out : Option String)
    (res : MergeResult) (hok : merge_lists cfg bl out = .ok res) :
    (∀ p ∈ allPlugins cfg, p ∈ res.trace ↔ (p.name ∉ bl ∧ p.enabled = true)) ∧
    res.accs = res.trace.foldl merge_with [] := by
  obtain ⟨htr, hacc, -, -⟩ := merge_lists_ok_inv hok
  refine ⟨?_, hacc⟩
  intro p hp
  rw [htr, List.mem_filter]
  simp [mergeCond, hp]

theorem claim_C2_witness :
    (∀ p ∈ allPlugins cfgW, p ∈ resW.trace ↔ (p.name ∉ blW ∧ p.enabled = true)) ∧
    resW.accs = resW.trace.foldl merge_with [] :=
  claim_C2_fold_iff cfgW blW none resW rfl

/-- C3: the merge is a strictly sequential left fold over the plugins in
the order they appear in the configuration listing — the folded sequence
is exactly the in-order filter of that listing, hence an order-preserving
subsequence of it, with each listed plugin folded at most its number of
listings and none reordered. -/
theorem claim_C3_sequential (cfg : ConfigFile) (bl : List String) (out : Option String)
    (res : MergeResult) (hok : merge_lists cfg bl out = .ok res) :
    res.trace = (allPlugins cfg).filter (mergeCond bl) ∧
    res.trace.Sublist (allPlugins cfg) ∧
    res.accs = res.trace.foldl merge_with [] := by
  obtain ⟨htr, hacc, -, -⟩ := merge_lists_ok_inv hok
  refine ⟨htr, ?_, hacc⟩
  rw [htr]
  exact List.filter_sublist _

theorem claim_C3_witness :
    resW.trace = (allPlugins cfgW).filter (mergeCond blW) ∧
    resW.trace.Sublist (allPlugins cfgW) ∧
    resW.accs = resW.trace.foldl merge_with [] :=
  claim_C3_sequential cfgW blW none resW rfl

/-- C4: encoding then decoding a leveled list yields an Entry set equal to
the original, and two entry lists denoting the same Entry set (in any
order) encode to the identical canonical serialization, sorted by reference
identifier then level. -/
theorem claim_C4_codec_canonical (l₁ l₂ : List Entry)
    (h₁ : l₁.Nodup) (h₂ : l₂.Nodup) :
    decodeEntries (encodeEntries l₁) = l₁.toFinset ∧
    (l₁.toFinset = l₂.toFinset → encodeEntries l₁ = encodeEntries l₂) :=
  ⟨encodeEntries_toFinset l₁, fun h => encodeEntries_eq_of_toFinset_eq l₁ l₂ h₁ h₂ h⟩

theorem claim_C4_witness :
    ([Entry.mk "b" 2, Entry.mk "a" 1].Nodup ∧ [Entry.mk "a" 1, Entry.mk "b" 2].Nodup) ∧
    (decodeEntries (encodeEntries [Entry.mk "b" 2, Entry.mk "a" 1]) =
        [Entry.mk "b" 2, Entry.mk "a" 1].toFinset ∧
      ([Entry.mk "b" 2, Entry.mk "a" 1].toFinset = [Entry.mk "a" 1, Entry.mk "b" 2].toFinset →
        encodeEntries [Entry.mk "b" 2, Entry.mk "a" 1] =
          encodeEntries [Entry.mk "a" 1, Entry.mk "b" 2])) :=
  ⟨⟨by decide, by decide⟩, claim_C4_codec_canonical _ _ (by decide) (by decide)⟩

/-- C5: when no output path is supplied, `merge_lists` writes to
`./Merged_Lists.esp` — not to the `./merged.esp` stated by its docstring
(src line 240) and by the `--output` help text (src line 345): the code
contradicts its own interface documentation. -/
theorem claim_C5_default_out :
    defaultOut none = "./Merged_Lists.esp" ∧ defaultOut none ≠ "./merged.esp" :=
  ⟨rfl, by decide⟩

/-- C6: the per-plugin diff report omits empty categories: rendering a
record-type block ignores every status with an empty entry set, and the
block renders no output at all exactly when every one of its statuses is
empty. -/
theorem claim_C6_omit_empty (recCode : String) (statuses : List (String × List String)) :
    renderBlock recCode statuses =
      renderBlock recCode (statuses.filter (fun st => !st.2.isEmpty)) ∧
    (renderBlock recCode statuses = [] ↔ ∀ st ∈ statuses, st.2 = []) := by
  have hidem : (statuses.filter (fun st => !st.2.isEmpty)).filter (fun st => !st.2.isEmpty) =
      statuses.filter (fun st => !st.2.isEmpty) := by
    rw [List.filter_filter]
    simp
  constructor
  · rw [renderBlock, renderBlock, renderBlockAux_false, renderBlockAux_false, hidem]
  · rw [renderBlock, renderBlockAux_false]
    by_cases h : (statuses.filter (fun st => !st.2.isEmpty)).isEmpty
    · rw [if_pos h]
      rw [List.isEmpty_iff, List.filter_eq_nil_iff] at h
      refine iff_of_true rfl ?_
      intro st hst
      have := h st hst
      simpa [List.isEmpty_iff] using this
    · rw [if_neg h]
      refine iff_of_false (by simp) ?_
      intro hall
      apply h
      rw [List.isEmpty_iff, List.filter_eq_nil_iff]
      intro st hst
      simp [hall st hst]

/-- C7: report entries are grouped under a list-kind label that is
`"Leveled Creatures"` exactly when the record type code is `LEVC` and
`"Leveled Items"` otherwise, and a non-empty block renders as that label
followed by a heading (and entries) per non-empty status category. -/
theorem claim_C7_grouping (recCode : String) (statuses : List (String × List String)) :
    (listLabel recCode = "Leveled Creatures" ↔ recCode = "LEVC") ∧
    (listLabel recCode = "Leveled Items" ↔ recCode ≠ "LEVC") ∧
    renderBlock recCode statuses =
      (if (statuses.filter (fun st => !st.2.isEmpty)).isEmpty then []
       else hline (listLabel recCode) ::
         (statuses.filter (fun st => !st.2.isEmpty)).flatMap renderStatus) := by
  refine ⟨?_, ?_, renderBlockAux_false _ _⟩
  · unfold listLabel
    by_cases h : recCode = "LEVC" <;> simp [h]
  · unfold listLabel
    by_cases h : recCode = "LEVC" <;> simp [h]

/-- C8: with no mods listed in the configuration, `merge_lists` prints
`"Nothing to merge!"` and exits with status 1, producing no merged result
and writing nothing. -/
theorem claim_C8_nothing_to_merge (cfg : ConfigFile) (bl : List String)
    (out : Option String) (h : cfg.mods = []) :
    merge_lists cfg bl out = .error ⟨1, "Nothing to merge!"⟩ := by
  rw [merge_lists, if_pos (by simpa using h)]

theorem claim_C8_witness :
    merge_lists ⟨[]⟩ [] none = .error ⟨1, "Nothing to merge!"⟩ :=
  claim_C8_nothing_to_merge ⟨[]⟩ [] none rfl

/-- C9: `enable_plugin` on an already-enabled plugin exits with status 1
without writing the configuration file, while `disable_plugin` on an
already-disabled plugin does not abort — it still disables the plugin and
writes the configuration file. -/
theorem claim_C9_enable_disable_asymmetry (cfg : OmwConfig) (name : String)
    (p : PluginState) (hfind : find_plugin cfg name = some p) :
    (p.enabled = true →
      enable_plugin cfg name = .error ⟨1, "Plugin " ++ name ++ " is already enabled."⟩) ∧
    (p.enabled = false →
      disable_plugin cfg name = .ok (setEnabled cfg name false, true)) := by
  constructor
  · intro hen
    unfold enable_plugin
    rw [hfind]
    dsimp only
    rw [if_pos hen]
  · intro hdis
    unfold disable_plugin
    rw [hfind]

theorem claim_C9_witness :
    enable_plugin cfgEn "Morrowind.esm" =
      .error ⟨1, "Plugin " ++ "Morrowind.esm" ++ " is already enabled."⟩ ∧
    disable_plugin cfgDis "Morrowind.esm" =
      .ok (setEnabled cfgDis "Morrowind.esm" false, true) :=
  ⟨(claim_C9_enable_disable_asymmetry cfgEn "Morrowind.esm" ⟨"Morrowind.esm", true⟩ rfl).1 rfl,
   (claim_C9_enable_disable_asymmetry cfgDis "Morrowind.esm" ⟨"Morrowind.esm", false⟩ rfl).2 rfl⟩

/-- C10: when every `data` entry of the configuration points to an existing
path and there are no orphaned `content` entries, `clean_mods` does not
call `write()` and leaves the configuration entries unchanged. -/
theorem claim_C10_clean_noop (entries : List ConfigEntryKV) (pathExists : String → Bool)
    (orphans : List String)
    (hdata : ∀ e ∈ entries, e.key = "data" → pathExists e.value = true)
    (horph : orphans = []) :
    clean_mods entries pathExists orphans = (entries, false) := by
  subst horph
  have hbad : (entries.filter (fun e => e.key = "data")).filter
      (fun e => !(pathExists e.value)) = [] := by
    rw [List.filter_eq_nil_iff]
    intro e he
    rw [List.mem_filter] at he
    have := hdata e he.1 (by simpa using he.2)
    simp [this]
  unfold clean_mods
  rw [hbad]
  simp

theorem claim_C10_witness :
    (∀ e ∈ [ConfigEntryKV.mk "data" "/mods/a"],
        e.key = "data" → (fun _ => true) e.value = true) ∧
    clean_mods [ConfigEntryKV.mk "data" "/mods/a"] (fun _ => true) [] =
      ([ConfigEntryKV.mk "data" "/mods/a"], false) :=
  ⟨by decide, claim_C10_clean_noop _ _ _ (by decide) rfl⟩

end OpenmwUtils
